import Mathlib

/-!
Verification of `check4duplicates.py` (dmlane/dml-check4duplicates).

The program is embedded shallowly: the filesystem is an abstract snapshot
(`FS`), command-line parsing results are a `Config`, and the body of
`Check4Duplicates.run` (together with `validate_args` and
`mark_as_duplicate`, inlined at their call sites) becomes a pure function
`run : FS → Config → Outcome × List Ev` returning the process outcome and
the ordered trace of observable side effects (prints, `os.stat` calls on
candidates, file openings for content comparison, tag mutations).

Modelling notes, each tied to a line of the source:
* `argparse` with `action="append"` and no default leaves
  `args.directory = None` when no `-d` flag is supplied, so
  `Config.directories : Option (List String)`; `validate_args` line 86
  then evaluates `len(None)`, which raises `TypeError` — modelled by the
  `Outcome.exn` result in `run`.
* `os.stat(file).st_size` on a candidate (line 118) is unguarded; a
  failing stat (broken symlink, vanished file) raises `OSError` —
  modelled by `FS.content` returning `none` for such paths.
* `filecmp.cmp(a, b, shallow=False)` (line 120) is a byte comparison of
  the two files, reached only when the sizes already agree; the file
  size is the length of its byte content, so `FS` carries only the
  content and sizes are derived.
* `os.walk` (line 115) yields every regular file under a root in a
  filesystem-dependent order; `FS.walk` returns that list of joined
  paths directly.
-/

namespace Check4Duplicates

/-- Tag colors used by `macos_tags` calls in the source. -/
inductive Color where
  | red
  | green
deriving DecidableEq

/-- Observable side effects of a run, in program order. -/
inductive Ev where
  | printHelp
  | printMsg (msg : String)
  | clearTags (path : String)
  | checkDir (dir : String)
  | statFile (path : String)
  | openCmp (path : String)
  | addTag (tagName : String) (color : Color) (path : String)
deriving DecidableEq

/-- Process termination: a `sys.exit(code)` or an uncaught Python exception. -/
inductive Outcome where
  | exit (code : Nat)
  | exn (msg : String)
deriving DecidableEq

/-- Snapshot of the filesystem.  `content p = none` means `os.stat p`
(and hence any read) fails; `walk d` lists the joined paths of all
regular files `os.walk` yields under root `d`, in traversal order. -/
structure FS where
  isFile : String → Bool
  isDir : String → Bool
  walk : String → List String
  content : String → Option (List Nat)

/-- Result of `parse_args`: `directories` is `none` when no `-d` option
was supplied at all (argparse append semantics). -/
structure Config where
  directories : Option (List String)
  reference_file : String
  verbose : Bool

/-- Inner candidate loop of `Check4Duplicates.run` (source lines 116-125)
over the walk output of one directory.  Returns `some outcome` when the loop
terminates the process early, `none` when it falls through, together
with the emitted events. -/
def scanFiles (fs : FS) (ref : String) (rc : List Nat) (verbose : Bool) :
    List String → Option Outcome × List Ev
  | [] => (none, [])
  | f :: rest =>
    match fs.content f with
    | none => (some (Outcome.exn "OSError"), [Ev.statFile f])
    | some c =>
      if c.length = rc.length then
        if c = rc then
          (some (Outcome.exit 1),
            [Ev.statFile f, Ev.openCmp f, Ev.addTag "Duplicate" Color.red ref] ++
              (if verbose then [Ev.printMsg ("File " ++ f ++ " is identical to " ++ ref)]
               else []))
        else
          let r := scanFiles fs ref rc verbose rest
          (r.1, Ev.statFile f :: Ev.openCmp f :: r.2)
      else
        let r := scanFiles fs ref rc verbose rest
        (r.1, Ev.statFile f :: r.2)

/-- Outer directory loop of `Check4Duplicates.run` (source lines 111-129),
including the fall-through "Unique" tagging and `sys.exit(0)`. -/
def scanDirs (fs : FS) (ref : String) (rc : List Nat) (verbose : Bool) :
    List String → Outcome × List Ev
  | [] => (Outcome.exit 0, [Ev.addTag "Unique" Color.green ref])
  | d :: rest =>
    if fs.isDir d then
      let r := scanFiles fs ref rc verbose (fs.walk d)
      match r.1 with
      | some out => (out, Ev.checkDir d :: r.2)
      | none =>
        let s := scanDirs fs ref rc verbose rest
        (s.1, Ev.checkDir d :: (r.2 ++ s.2))
    else
      (Outcome.exit 1,
        [Ev.checkDir d, Ev.printMsg ("Directory " ++ d ++ " does not exist")])

/-- `Check4Duplicates.run` after `parse_args`: `validate_args`
(source lines 84-95), the tag reset and re-stat (lines 108-109), then the
scan (lines 111-129). -/
def run (fs : FS) (cfg : Config) : Outcome × List Ev :=
  match cfg.directories with
  | none => (Outcome.exn "TypeError", [])
  | some dirs =>
    if dirs.length = 0 then
      (Outcome.exit 2, [Ev.printHelp])
    else if fs.isFile cfg.reference_file = false then
      (Outcome.exit 2,
        [Ev.printMsg ("Reference file " ++ cfg.reference_file ++ " does not exist")])
    else
      match fs.content cfg.reference_file with
      | none => (Outcome.exn "OSError", [Ev.statFile cfg.reference_file])
      | some rc =>
        if rc.length = 0 then
          (Outcome.exit 2,
            [Ev.statFile cfg.reference_file,
             Ev.printMsg ("Reference file " ++ cfg.reference_file ++ " is empty")])
        else
          let r := scanDirs fs cfg.reference_file rc cfg.verbose dirs
          (r.1,
            Ev.statFile cfg.reference_file :: Ev.clearTags cfg.reference_file ::
              Ev.statFile cfg.reference_file :: r.2)

/-- A candidate path whose content equals the reference content. -/
def isMatch (fs : FS) (rc : List Nat) (f : String) : Bool :=
  fs.content f == some rc

/-- All candidate paths a full walk of `dirs` would visit, in order. -/
def candidates (fs : FS) (dirs : List String) : List String :=
  dirs.flatMap fs.walk

/-- The prefix of a list up to and including the first element satisfying
`p` (the whole list when none does): the part of the candidate stream a
short-circuiting scan examines. -/
def takeThrough {α : Type} (p : α → Bool) : List α → List α
  | [] => []
  | a :: l => if p a then [a] else a :: takeThrough p l

/-- Whether a walk of directory `d` would encounter a content match. -/
def dirHasMatch (fs : FS) (rc : List Nat) (d : String) : Bool :=
  ((fs.walk d).find? (isMatch fs rc)).isSome

/-- Recognizer for tag-adding events. -/
def isAdd : Ev → Bool
  | Ev.addTag _ _ _ => true
  | _ => false

/-- Recognizer for tag-clearing events. -/
def isClear : Ev → Bool
  | Ev.clearTags _ => true
  | _ => false

/-! ### Concrete filesystems used to witness the theorems -/

/-- Byte content of the string "hello". -/
def hello : List Nat := [104, 101, 108, 108, 111]

/-- Byte content of the string "world": same length as `hello`, different bytes. -/
def world : List Nat := [119, 111, 114, 108, 100]

/-- Reference file `a.txt` = "hello"; `dirA` holds `x.txt` = "world" and
`y.txt` = "hello" (a duplicate), in that walk order. -/
def fsDup : FS where
  isFile := fun p => p == "a.txt"
  isDir := fun d => d == "dirA"
  walk := fun d => if d == "dirA" then ["dirA/x.txt", "dirA/y.txt"] else []
  content := fun p =>
    if p == "a.txt" then some hello
    else if p == "dirA/x.txt" then some world
    else if p == "dirA/y.txt" then some hello
    else none

/-- Reference file `a.txt` = "hello"; `dirA` holds only `y.txt` = "world"
(same size, different content).  No duplicate anywhere. -/
def fsUniq : FS where
  isFile := fun p => p == "a.txt"
  isDir := fun d => d == "dirA"
  walk := fun d => if d == "dirA" then ["dirA/y.txt"] else []
  content := fun p =>
    if p == "a.txt" then some hello
    else if p == "dirA/y.txt" then some world
    else none

/-- Like `fsUniq` but `dirB` does not exist. -/
def fsBadDir : FS where
  isFile := fun p => p == "a.txt"
  isDir := fun d => d == "dirA"
  walk := fun d => if d == "dirA" then ["dirA/y.txt"] else []
  content := fun p =>
    if p == "a.txt" then some hello
    else if p == "dirA/y.txt" then some world
    else none

/-- Reference `a.txt` = "hello"; `dirA` walk yields a broken entry
`dirA/ghost` that fails to stat. -/
def fsGhost : FS where
  isFile := fun p => p == "a.txt"
  isDir := fun d => d == "dirA"
  walk := fun d => if d == "dirA" then ["dirA/ghost"] else []
  content := fun p => if p == "a.txt" then some hello else none

/-- Reference `a.txt` exists but is empty. -/
def fsEmptyRef : FS where
  isFile := fun p => p == "a.txt"
  isDir := fun d => d == "dirA"
  walk := fun _ => []
  content := fun p => if p == "a.txt" then some [] else none

/-- `dirA` contains the reference file itself and nothing else. -/
def fsSelf : FS where
  isFile := fun p => p == "dirA/a.txt"
  isDir := fun d => d == "dirA"
  walk := fun d => if d == "dirA" then ["dirA/a.txt"] else []
  content := fun p => if p == "dirA/a.txt" then some hello else none

example :
    run fsDup ⟨some ["dirA"], "a.txt", true⟩ =
      (Outcome.exit 1,
        [Ev.statFile "a.txt", Ev.clearTags "a.txt", Ev.statFile "a.txt",
         Ev.checkDir "dirA", Ev.statFile "dirA/x.txt", Ev.openCmp "dirA/x.txt",
         Ev.statFile "dirA/y.txt", Ev.openCmp "dirA/y.txt",
         Ev.addTag "Duplicate" Color.red "a.txt",
         Ev.printMsg "File dirA/y.txt is identical to a.txt"]) := by
  decide

example :
    run fsUniq ⟨some ["dirA"], "a.txt", false⟩ =
      (Outcome.exit 0,
        [Ev.statFile "a.txt", Ev.clearTags "a.txt", Ev.statFile "a.txt",
         Ev.checkDir "dirA", Ev.statFile "dirA/y.txt", Ev.openCmp "dirA/y.txt",
         Ev.addTag "Unique" Color.green "a.txt"]) := by
  decide

example :
    run fsBadDir ⟨some ["dirA", "dirB"], "a.txt", false⟩ =
      (Outcome.exit 1,
        [Ev.statFile "a.txt", Ev.clearTags "a.txt", Ev.statFile "a.txt",
         Ev.checkDir "dirA", Ev.statFile "dirA/y.txt", Ev.openCmp "dirA/y.txt",
         Ev.checkDir "dirB", Ev.printMsg "Directory dirB does not exist"]) := by
  decide

example :
    run fsGhost ⟨some ["dirA"], "a.txt", false⟩ =
      (Outcome.exn "OSError",
        [Ev.statFile "a.txt", Ev.clearTags "a.txt", Ev.statFile "a.txt",
         Ev.checkDir "dirA", Ev.statFile "dirA/ghost"]) := by
  decide

example :
    run fsEmptyRef ⟨some ["dirA"], "a.txt", false⟩ =
      (Outcome.exit 2,
        [Ev.statFile "a.txt", Ev.printMsg "Reference file a.txt is empty"]) := by
  decide

example :
    run fsSelf ⟨some ["dirA"], "dirA/a.txt", false⟩ =
      (Outcome.exit 1,
        [Ev.statFile "dirA/a.txt", Ev.clearTags "dirA/a.txt", Ev.statFile "dirA/a.txt",
         Ev.checkDir "dirA", Ev.statFile "dirA/a.txt", Ev.openCmp "dirA/a.txt",
         Ev.addTag "Duplicate" Color.red "dirA/a.txt"]) := by
  decide

/-! ### Basic lemmas -/

section Lemmas

variable (fs : FS) (ref : String) (rc : List Nat) (v : Bool)

lemma isMatch_true_iff (f : String) :
    isMatch fs rc f = true ↔ fs.content f = some rc := by
  simp [isMatch]

lemma takeThrough_append_of_none {α : Type} (p : α → Bool) (a b : List α)
    (h : a.find? p = none) : takeThrough p (a ++ b) = a ++ takeThrough p b := by
  induction a with
  | nil => simp
  | cons x t ih =>
    cases hx : p x with
    | true =>
      rw [List.find?_cons_of_pos _ hx] at h
      exact absurd h (by simp)
    | false =>
      rw [List.find?_cons_of_neg _ (by simp [hx])] at h
      simp [takeThrough, hx, ih h]

lemma takeThrough_append_of_some {α : Type} (p : α → Bool) (a b : List α) (m : α)
    (h : a.find? p = some m) : takeThrough p (a ++ b) = takeThrough p a := by
  induction a with
  | nil => simp at h
  | cons x t ih =>
    cases hx : p x with
    | true => simp [takeThrough, hx]
    | false =>
      rw [List.find?_cons_of_neg _ (by simp [hx])] at h
      simp [takeThrough, hx, ih h]

lemma two_le_countP_of_mem {α : Type} (p : α → Bool) :
    ∀ (l : List α) (a b : α), a ∈ l → b ∈ l → a ≠ b → p a = true → p b = true →
      2 ≤ l.countP p := by
  intro l
  induction l with
  | nil => intro a b ha _ _ _ _; simp at ha
  | cons c t ih =>
    intro a b ha hb hne hpa hpb
    rw [List.countP_cons]
    rcases List.mem_cons.mp ha with rfl | ha2
    · rcases List.mem_cons.mp hb with rfl | hb2
      · exact absurd rfl hne
      · have h1 : 0 < t.countP p := List.countP_pos_iff.mpr ⟨b, hb2, hpb⟩
        rw [if_pos hpa]
        omega
    · rcases List.mem_cons.mp hb with rfl | hb2
      · have h1 : 0 < t.countP p := List.countP_pos_iff.mpr ⟨a, ha2, hpa⟩
        rw [if_pos hpb]
        omega
      · have h2 := ih a b ha2 hb2 hne hpa hpb
        omega

/-! Step equations for `scanFiles` and `scanDirs`, one per source branch. -/

lemma scanFiles_cons_ghost (g : String) (rest : List String)
    (hc : fs.content g = none) :
    scanFiles fs ref rc v (g :: rest) =
      (some (Outcome.exn "OSError"), [Ev.statFile g]) := by
  simp [scanFiles, hc]

lemma scanFiles_cons_skip (g : String) (rest : List String) (c : List Nat)
    (hc : fs.content g = some c) (hlen : c.length ≠ rc.length) :
    scanFiles fs ref rc v (g :: rest) =
      ((scanFiles fs ref rc v rest).1,
        Ev.statFile g :: (scanFiles fs ref rc v rest).2) := by
  simp [scanFiles, hc, hlen]

lemma scanFiles_cons_diff (g : String) (rest : List String) (c : List Nat)
    (hc : fs.content g = some c) (hlen : c.length = rc.length) (hne : c ≠ rc) :
    scanFiles fs ref rc v (g :: rest) =
      ((scanFiles fs ref rc v rest).1,
        Ev.statFile g :: Ev.openCmp g :: (scanFiles fs ref rc v rest).2) := by
  simp [scanFiles, hc, hlen, hne]

lemma scanFiles_cons_match (g : String) (rest : List String)
    (hc : fs.content g = some rc) :
    scanFiles fs ref rc v (g :: rest) =
      (some (Outcome.exit 1),
        [Ev.statFile g, Ev.openCmp g, Ev.addTag "Duplicate" Color.red ref] ++
          (if v then [Ev.printMsg ("File " ++ g ++ " is identical to " ++ ref)]
           else [])) := by
  simp [scanFiles, hc]

lemma scanDirs_nil :
    scanDirs fs ref rc v [] = (Outcome.exit 0, [Ev.addTag "Unique" Color.green ref]) := by
  simp [scanDirs]

lemma scanDirs_cons_bad (d : String) (rest : List String)
    (hd : fs.isDir d = false) :
    scanDirs fs ref rc v (d :: rest) =
      (Outcome.exit 1,
        [Ev.checkDir d, Ev.printMsg ("Directory " ++ d ++ " does not exist")]) := by
  simp [scanDirs, hd]

lemma scanDirs_cons_stop (d : String) (rest : List String) (out : Outcome)
    (hd : fs.isDir d = true)
    (h : (scanFiles fs ref rc v (fs.walk d)).1 = some out) :
    scanDirs fs ref rc v (d :: rest) =
      (out, Ev.checkDir d :: (scanFiles fs ref rc v (fs.walk d)).2) := by
  simp [scanDirs, hd, h]

lemma scanDirs_cons_cont (d : String) (rest : List String)
    (hd : fs.isDir d = true)
    (h : (scanFiles fs ref rc v (fs.walk d)).1 = none) :
    scanDirs fs ref rc v (d :: rest) =
      ((scanDirs fs ref rc v rest).1,
        Ev.checkDir d ::
          ((scanFiles fs ref rc v (fs.walk d)).2 ++ (scanDirs fs ref rc v rest).2)) := by
  simp [scanDirs, hd, h]

/-! Behaviour of the candidate loop. -/

lemma scanFiles_none :
    ∀ l : List String,
      (∀ f ∈ l, (fs.content f).isSome) →
      (∀ f ∈ l, fs.content f ≠ some rc) →
      (scanFiles fs ref rc v l).1 = none ∧
      ∀ e ∈ (scanFiles fs ref rc v l).2,
        ∃ f ∈ l, e = Ev.statFile f ∨ e = Ev.openCmp f := by
  intro l
  induction l with
  | nil =>
    intro _ _
    refine ⟨rfl, ?_⟩
    intro e he
    simp [scanFiles] at he
  | cons g rest ih =>
    intro hstat hnm
    obtain ⟨c, hc⟩ := Option.isSome_iff_exists.mp (hstat g (List.mem_cons_self g rest))
    have hgne : fs.content g ≠ some rc := hnm g (List.mem_cons_self g rest)
    have hcne : c ≠ rc := fun h => hgne (h ▸ hc)
    obtain ⟨ih1, ih2⟩ := ih (fun f hf => hstat f (List.mem_cons_of_mem g hf))
      (fun f hf => hnm f (List.mem_cons_of_mem g hf))
    by_cases hlen : c.length = rc.length
    · rw [scanFiles_cons_diff fs ref rc v g rest c hc hlen hcne]
      refine ⟨ih1, ?_⟩
      intro e he
      rcases List.mem_cons.mp he with rfl | he2
      · exact ⟨g, List.mem_cons_self g rest, Or.inl rfl⟩
      · rcases List.mem_cons.mp he2 with rfl | he3
        · exact ⟨g, List.mem_cons_self g rest, Or.inr rfl⟩
        · obtain ⟨f, hf, hef⟩ := ih2 e he3
          exact ⟨f, List.mem_cons_of_mem g hf, hef⟩
    · rw [scanFiles_cons_skip fs ref rc v g rest c hc hlen]
      refine ⟨ih1, ?_⟩
      intro e he
      rcases List.mem_cons.mp he with rfl | he2
      · exact ⟨g, List.mem_cons_self g rest, Or.inl rfl⟩
      · obtain ⟨f, hf, hef⟩ := ih2 e he2
        exact ⟨f, List.mem_cons_of_mem g hf, hef⟩

lemma scanFiles_match :
    ∀ (l : List String) (m : String),
      (∀ f ∈ l, (fs.content f).isSome) →
      l.find? (isMatch fs rc) = some m →
      (scanFiles fs ref rc v l).1 = some (Outcome.exit 1) ∧
      Ev.addTag "Duplicate" Color.red ref ∈ (scanFiles fs ref rc v l).2 ∧
      (v = true →
        Ev.printMsg ("File " ++ m ++ " is identical to " ++ ref) ∈
          (scanFiles fs ref rc v l).2) ∧
      ∀ e ∈ (scanFiles fs ref rc v l).2,
        (∃ f ∈ takeThrough (isMatch fs rc) l, e = Ev.statFile f ∨ e = Ev.openCmp f) ∨
        e = Ev.addTag "Duplicate" Color.red ref ∨
        e = Ev.printMsg ("File " ++ m ++ " is identical to " ++ ref) := by
  intro l
  induction l with
  | nil => intro m _ hm; simp at hm
  | cons g rest ih =>
    intro m hstat hm
    cases hg : isMatch fs rc g with
    | true =>
      have hgc : fs.content g = some rc := (isMatch_true_iff fs rc g).mp hg
      rw [List.find?_cons_of_pos _ hg] at hm
      have hgm : g = m := Option.some.inj hm
      subst hgm
      rw [scanFiles_cons_match fs ref rc v g rest hgc]
      have htt : takeThrough (isMatch fs rc) (g :: rest) = [g] := by
        simp [takeThrough, hg]
      refine ⟨rfl, by simp, fun hv => by simp [hv], ?_⟩
      intro e he
      rw [htt]
      rcases List.mem_append.mp he with h1 | h2
      · rcases List.mem_cons.mp h1 with rfl | h1b
        · exact Or.inl ⟨g, List.mem_singleton.mpr rfl, Or.inl rfl⟩
        · rcases List.mem_cons.mp h1b with rfl | h1c
          · exact Or.inl ⟨g, List.mem_singleton.mpr rfl, Or.inr rfl⟩
          · rcases List.mem_singleton.mp h1c with rfl
            exact Or.inr (Or.inl rfl)
      · cases v with
        | false => simp at h2
        | true =>
          rcases List.mem_singleton.mp h2 with rfl
          exact Or.inr (Or.inr rfl)
    | false =>
      have hgne : fs.content g ≠ some rc := by
        intro h
        rw [(isMatch_true_iff fs rc g).mpr h] at hg
        exact absurd hg (by simp)
      obtain ⟨c, hc⟩ := Option.isSome_iff_exists.mp (hstat g (List.mem_cons_self g rest))
      have hcne : c ≠ rc := fun h => hgne (h ▸ hc)
      rw [List.find?_cons_of_neg _ (by simp [hg])] at hm
      obtain ⟨ih1, ih2, ih3, ih4⟩ :=
        ih m (fun f hf => hstat f (List.mem_cons_of_mem g hf)) hm
      have htt : takeThrough (isMatch fs rc) (g :: rest) =
          g :: takeThrough (isMatch fs rc) rest := by
        simp [takeThrough, hg]
      by_cases hlen : c.length = rc.length
      · rw [scanFiles_cons_diff fs ref rc v g rest c hc hlen hcne, htt]
        refine ⟨ih1, List.mem_cons_of_mem _ (List.mem_cons_of_mem _ ih2),
          fun hv => List.mem_cons_of_mem _ (List.mem_cons_of_mem _ (ih3 hv)), ?_⟩
        intro e he
        rcases List.mem_cons.mp he with rfl | he2
        · exact Or.inl ⟨g, List.mem_cons_self _ _, Or.inl rfl⟩
        · rcases List.mem_cons.mp he2 with rfl | he3
          · exact Or.inl ⟨g, List.mem_cons_self _ _, Or.inr rfl⟩
          · rcases ih4 e he3 with ⟨f, hf, hef⟩ | h | h
            · exact Or.inl ⟨f, List.mem_cons_of_mem g hf, hef⟩
            · exact Or.inr (Or.inl h)
            · exact Or.inr (Or.inr h)
      · rw [scanFiles_cons_skip fs ref rc v g rest c hc hlen, htt]
        refine ⟨ih1, List.mem_cons_of_mem _ ih2,
          fun hv => List.mem_cons_of_mem _ (ih3 hv), ?_⟩
        intro e he
        rcases List.mem_cons.mp he with rfl | he2
        · exact Or.inl ⟨g, List.mem_cons_self _ _, Or.inl rfl⟩
        · rcases ih4 e he2 with ⟨f, hf, hef⟩ | h | h
          · exact Or.inl ⟨f, List.mem_cons_of_mem g hf, hef⟩
          · exact Or.inr (Or.inl h)
          · exact Or.inr (Or.inr h)

lemma scanFiles_crash :
    ∀ (wa : List String) (g : String) (wb : List String),
      (∀ f ∈ wa, (fs.content f).isSome) →
      (∀ f ∈ wa, fs.content f ≠ some rc) →
      fs.content g = none →
      (scanFiles fs ref rc v (wa ++ g :: wb)).1 = some (Outcome.exn "OSError") ∧
      ∀ e ∈ (scanFiles fs ref rc v (wa ++ g :: wb)).2,
        (∃ f, e = Ev.statFile f) ∨ (∃ f, e = Ev.openCmp f) := by
  intro wa
  induction wa with
  | nil =>
    intro g wb _ _ hg
    rw [List.nil_append, scanFiles_cons_ghost fs ref rc v g wb hg]
    refine ⟨rfl, ?_⟩
    intro e he
    rcases List.mem_singleton.mp he with rfl
    exact Or.inl ⟨g, rfl⟩
  | cons x t ih =>
    intro g wb hstat hnm hg
    obtain ⟨c, hc⟩ := Option.isSome_iff_exists.mp (hstat x (List.mem_cons_self x t))
    have hxne : fs.content x ≠ some rc := hnm x (List.mem_cons_self x t)
    have hcne : c ≠ rc := fun h => hxne (h ▸ hc)
    obtain ⟨ih1, ih2⟩ := ih g wb (fun f hf => hstat f (List.mem_cons_of_mem x hf))
      (fun f hf => hnm f (List.mem_cons_of_mem x hf)) hg
    rw [List.cons_append]
    by_cases hlen : c.length = rc.length
    · rw [scanFiles_cons_diff fs ref rc v x (t ++ g :: wb) c hc hlen hcne]
      refine ⟨ih1, ?_⟩
      intro e he
      rcases List.mem_cons.mp he with rfl | he2
      · exact Or.inl ⟨x, rfl⟩
      · rcases List.mem_cons.mp he2 with rfl | he3
        · exact Or.inr ⟨x, rfl⟩
        · exact ih2 e he3
    · rw [scanFiles_cons_skip fs ref rc v x (t ++ g :: wb) c hc hlen]
      refine ⟨ih1, ?_⟩
      intro e he
      rcases List.mem_cons.mp he with rfl | he2
      · exact Or.inl ⟨x, rfl⟩
      · exact ih2 e he2

lemma scanFiles_open_size :
    ∀ (l : List String) (f : String),
      Ev.openCmp f ∈ (scanFiles fs ref rc v l).2 →
      ∃ c, fs.content f = some c ∧ c.length = rc.length := by
  intro l
  induction l with
  | nil => intro f hf; simp [scanFiles] at hf
  | cons g rest ih =>
    intro f hf
    cases hc : fs.content g with
    | none =>
      rw [scanFiles_cons_ghost fs ref rc v g rest hc] at hf
      simp at hf
    | some c =>
      by_cases hceq : c = rc
      · rw [hceq] at hc
        rw [scanFiles_cons_match fs ref rc v g rest hc] at hf
        rcases List.mem_append.mp hf with h1 | h2
        · rcases List.mem_cons.mp h1 with h | h1b
          · exact absurd h (by simp)
          · rcases List.mem_cons.mp h1b with h | h1c
            · have hfg : f = g := by injection h
              exact ⟨rc, hfg ▸ hc, rfl⟩
            · rcases List.mem_singleton.mp h1c with h
              exact absurd h (by simp)
        · cases v with
          | false => simp at h2
          | true =>
            rcases List.mem_singleton.mp h2 with h
            exact absurd h (by simp)
      · by_cases hlen : c.length = rc.length
        · rw [scanFiles_cons_diff fs ref rc v g rest c hc hlen hceq] at hf
          rcases List.mem_cons.mp hf with h | hf2
          · exact absurd h (by simp)
          · rcases List.mem_cons.mp hf2 with h | hf3
            · have hfg : f = g := by injection h
              exact ⟨c, hfg ▸ hc, hlen⟩
            · exact ih f hf3
        · rw [scanFiles_cons_skip fs ref rc v g rest c hc hlen] at hf
          rcases List.mem_cons.mp hf with h | hf2
          · exact absurd h (by simp)
          · exact ih f hf2

lemma scanFiles_fst :
    ∀ (l : List String) (out : Outcome),
      (scanFiles fs ref rc v l).1 = some out →
      out = Outcome.exit 1 ∨ out = Outcome.exn "OSError" := by
  intro l
  induction l with
  | nil => intro out h; simp [scanFiles] at h
  | cons g rest ih =>
    intro out h
    cases hc : fs.content g with
    | none =>
      rw [scanFiles_cons_ghost fs ref rc v g rest hc] at h
      exact Or.inr (Option.some.inj h).symm
    | some c =>
      by_cases hceq : c = rc
      · rw [hceq] at hc
        rw [scanFiles_cons_match fs ref rc v g rest hc] at h
        exact Or.inl (Option.some.inj h).symm
      · by_cases hlen : c.length = rc.length
        · rw [scanFiles_cons_diff fs ref rc v g rest c hc hlen hceq] at h
          exact ih out h
        · rw [scanFiles_cons_skip fs ref rc v g rest c hc hlen] at h
          exact ih out h

lemma scanFiles_events :
    ∀ (l : List String), ∀ e ∈ (scanFiles fs ref rc v l).2,
      (∃ f, e = Ev.statFile f) ∨ (∃ f, e = Ev.openCmp f) ∨
      e = Ev.addTag "Duplicate" Color.red ref ∨ (∃ s, e = Ev.printMsg s) := by
  intro l
  induction l with
  | nil => intro e he; simp [scanFiles] at he
  | cons g rest ih =>
    intro e he
    cases hc : fs.content g with
    | none =>
      rw [scanFiles_cons_ghost fs ref rc v g rest hc] at he
      rcases List.mem_singleton.mp he with rfl
      exact Or.inl ⟨g, rfl⟩
    | some c =>
      by_cases hceq : c = rc
      · rw [hceq] at hc
        rw [scanFiles_cons_match fs ref rc v g rest hc] at he
        rcases List.mem_append.mp he with h1 | h2
        · rcases List.mem_cons.mp h1 with rfl | h1b
          · exact Or.inl ⟨g, rfl⟩
          · rcases List.mem_cons.mp h1b with rfl | h1c
            · exact Or.inr (Or.inl ⟨g, rfl⟩)
            · rcases List.mem_singleton.mp h1c with rfl
              exact Or.inr (Or.inr (Or.inl rfl))
        · cases v with
          | false => simp at h2
          | true =>
            rcases List.mem_singleton.mp h2 with rfl
            exact Or.inr (Or.inr (Or.inr ⟨_, rfl⟩))
      · by_cases hlen : c.length = rc.length
        · rw [scanFiles_cons_diff fs ref rc v g rest c hc hlen hceq] at he
          rcases List.mem_cons.mp he with rfl | he2
          · exact Or.inl ⟨g, rfl⟩
          · rcases List.mem_cons.mp he2 with rfl | he3
            · exact Or.inr (Or.inl ⟨g, rfl⟩)
            · exact ih e he3
        · rw [scanFiles_cons_skip fs ref rc v g rest c hc hlen] at he
          rcases List.mem_cons.mp he with rfl | he2
          · exact Or.inl ⟨g, rfl⟩
          · exact ih e he2

lemma scanFiles_countP :
    ∀ l : List String,
      ((scanFiles fs ref rc v l).1 = none →
        (scanFiles fs ref rc v l).2.countP isAdd = 0) ∧
      (scanFiles fs ref rc v l).2.countP isAdd ≤ 1 := by
  intro l
  induction l with
  | nil => exact ⟨fun _ => rfl, by simp [scanFiles]⟩
  | cons g rest ih =>
    cases hc : fs.content g with
    | none =>
      rw [scanFiles_cons_ghost fs ref rc v g rest hc]
      exact ⟨fun h => absurd h (by simp), by simp [isAdd]⟩
    | some c =>
      by_cases hceq : c = rc
      · rw [hceq] at hc
        rw [scanFiles_cons_match fs ref rc v g rest hc]
        refine ⟨fun h => absurd h (by simp), ?_⟩
        cases v with
        | false => simp [List.countP_cons, isAdd]
        | true => simp [List.countP_append, List.countP_cons, isAdd]
      · by_cases hlen : c.length = rc.length
        · rw [scanFiles_cons_diff fs ref rc v g rest c hc hlen hceq]
          refine ⟨fun h => ?_, ?_⟩
          · simpa [isAdd] using ih.1 h
          · simpa [isAdd] using ih.2
        · rw [scanFiles_cons_skip fs ref rc v g rest c hc hlen]
          refine ⟨fun h => ?_, ?_⟩
          · simpa [isAdd] using ih.1 h
          · simpa [isAdd] using ih.2

/-! Behaviour of the directory loop. -/

lemma scanDirs_events :
    ∀ (l : List String), ∀ e ∈ (scanDirs fs ref rc v l).2,
      (∃ d, e = Ev.checkDir d) ∨ (∃ f, e = Ev.statFile f) ∨ (∃ f, e = Ev.openCmp f) ∨
      (∃ s, e = Ev.printMsg s) ∨
      e = Ev.addTag "Duplicate" Color.red ref ∨
      e = Ev.addTag "Unique" Color.green ref := by
  intro l
  induction l with
  | nil =>
    intro e he
    rw [scanDirs_nil] at he
    rcases List.mem_singleton.mp he with rfl
    exact Or.inr (Or.inr (Or.inr (Or.inr (Or.inr rfl))))
  | cons d rest ih =>
    intro e he
    cases hd : fs.isDir d with
    | false =>
      rw [scanDirs_cons_bad fs ref rc v d rest hd] at he
      rcases List.mem_cons.mp he with rfl | he2
      · exact Or.inl ⟨d, rfl⟩
      · rcases List.mem_singleton.mp he2 with rfl
        exact Or.inr (Or.inr (Or.inr (Or.inl ⟨_, rfl⟩)))
    | true =>
      cases hsf : (scanFiles fs ref rc v (fs.walk d)).1 with
      | some out =>
        rw [scanDirs_cons_stop fs ref rc v d rest out hd hsf] at he
        rcases List.mem_cons.mp he with rfl | he2
        · exact Or.inl ⟨d, rfl⟩
        · rcases scanFiles_events fs ref rc v (fs.walk d) e he2 with h | h | h | h
          · exact Or.inr (Or.inl h)
          · exact Or.inr (Or.inr (Or.inl h))
          · exact Or.inr (Or.inr (Or.inr (Or.inr (Or.inl h))))
          · exact Or.inr (Or.inr (Or.inr (Or.inl h)))
      | none =>
        rw [scanDirs_cons_cont fs ref rc v d rest hd hsf] at he
        rcases List.mem_cons.mp he with rfl | he2
        · exact Or.inl ⟨d, rfl⟩
        · rcases List.mem_append.mp he2 with h2 | h2
          · rcases scanFiles_events fs ref rc v (fs.walk d) e h2 with h | h | h | h
            · exact Or.inr (Or.inl h)
            · exact Or.inr (Or.inr (Or.inl h))
            · exact Or.inr (Or.inr (Or.inr (Or.inr (Or.inl h))))
            · exact Or.inr (Or.inr (Or.inr (Or.inl h)))
          · exact ih e h2

lemma scanDirs_countP :
    ∀ l : List String, (scanDirs fs ref rc v l).2.countP isAdd ≤ 1 := by
  intro l
  induction l with
  | nil => rw [scanDirs_nil]; simp [isAdd]
  | cons d rest ih =>
    cases hd : fs.isDir d with
    | false => rw [scanDirs_cons_bad fs ref rc v d rest hd]; simp [isAdd]
    | true =>
      cases hsf : (scanFiles fs ref rc v (fs.walk d)).1 with
      | some out =>
        rw [scanDirs_cons_stop fs ref rc v d rest out hd hsf]
        simpa [isAdd] using (scanFiles_countP fs ref rc v (fs.walk d)).2
      | none =>
        rw [scanDirs_cons_cont fs ref rc v d rest hd hsf]
        have h0 := (scanFiles_countP fs ref rc v (fs.walk d)).1 hsf
        have h1 : (Ev.checkDir d ::
            ((scanFiles fs ref rc v (fs.walk d)).2 ++ (scanDirs fs ref rc v rest).2)).countP
              isAdd ≤ 1 := by
          rw [List.countP_cons_of_neg _ _ (by simp [isAdd]), List.countP_append, h0]
          simpa using ih
        simpa using h1

lemma scanDirs_fst_ne :
    ∀ l : List String, (scanDirs fs ref rc v l).1 ≠ Outcome.exit 2 := by
  intro l
  induction l with
  | nil => rw [scanDirs_nil]; simp
  | cons d rest ih =>
    cases hd : fs.isDir d with
    | false => rw [scanDirs_cons_bad fs ref rc v d rest hd]; simp
    | true =>
      cases hsf : (scanFiles fs ref rc v (fs.walk d)).1 with
      | some out =>
        rw [scanDirs_cons_stop fs ref rc v d rest out hd hsf]
        rcases scanFiles_fst fs ref rc v (fs.walk d) out hsf with rfl | rfl <;> simp
      | none =>
        rw [scanDirs_cons_cont fs ref rc v d rest hd hsf]
        exact ih

lemma scanDirs_match :
    ∀ (dirs : List String) (m : String),
      (∀ d ∈ dirs, fs.isDir d = true) →
      (∀ f ∈ candidates fs dirs, (fs.content f).isSome) →
      (candidates fs dirs).find? (isMatch fs rc) = some m →
      (scanDirs fs ref rc v dirs).1 = Outcome.exit 1 ∧
      Ev.addTag "Duplicate" Color.red ref ∈ (scanDirs fs ref rc v dirs).2 ∧
      (v = true →
        Ev.printMsg ("File " ++ m ++ " is identical to " ++ ref) ∈
          (scanDirs fs ref rc v dirs).2) ∧
      ∀ e ∈ (scanDirs fs ref rc v dirs).2,
        (∃ d ∈ takeThrough (dirHasMatch fs rc) dirs, e = Ev.checkDir d) ∨
        (∃ f ∈ takeThrough (isMatch fs rc) (candidates fs dirs),
          e = Ev.statFile f ∨ e = Ev.openCmp f) ∨
        e = Ev.addTag "Duplicate" Color.red ref ∨
        e = Ev.printMsg ("File " ++ m ++ " is identical to " ++ ref) := by
  intro dirs
  induction dirs with
  | nil => intro m _ _ hm; simp [candidates] at hm
  | cons d rest ih =>
    intro m hdir hstat hm
    have hd : fs.isDir d = true := hdir d (List.mem_cons_self d rest)
    have hcand : candidates fs (d :: rest) = fs.walk d ++ candidates fs rest := by
      simp [candidates]
    rw [hcand] at hm
    rw [List.find?_append] at hm
    have hstatw : ∀ f ∈ fs.walk d, (fs.content f).isSome := fun f hf =>
      hstat f (hcand ▸ List.mem_append_left _ hf)
    have hstatr : ∀ f ∈ candidates fs rest, (fs.content f).isSome := fun f hf =>
      hstat f (hcand ▸ List.mem_append_right _ hf)
    cases hw : (fs.walk d).find? (isMatch fs rc) with
    | some m1 =>
      rw [hw, Option.or_some] at hm
      have hm1 : m1 = m := Option.some.inj hm
      subst hm1
      obtain ⟨sf1, sf2, sf3, sf4⟩ := scanFiles_match fs ref rc v (fs.walk d) m1 hstatw hw
      rw [scanDirs_cons_stop fs ref rc v d rest (Outcome.exit 1) hd sf1]
      have hdm : dirHasMatch fs rc d = true := by simp [dirHasMatch, hw]
      have httd : takeThrough (dirHasMatch fs rc) (d :: rest) = [d] := by
        simp [takeThrough, hdm]
      have httf : takeThrough (isMatch fs rc) (candidates fs (d :: rest)) =
          takeThrough (isMatch fs rc) (fs.walk d) := by
        rw [hcand]
        exact takeThrough_append_of_some _ _ _ m1 hw
      refine ⟨rfl, List.mem_cons_of_mem _ sf2,
        fun hv => List.mem_cons_of_mem _ (sf3 hv), ?_⟩
      intro e he
      rcases List.mem_cons.mp he with rfl | he2
      · exact Or.inl ⟨d, by rw [httd]; exact List.mem_singleton.mpr rfl, rfl⟩
      · rcases sf4 e he2 with ⟨f, hf, hef⟩ | h | h
        · exact Or.inr (Or.inl ⟨f, by rw [httf]; exact hf, hef⟩)
        · exact Or.inr (Or.inr (Or.inl h))
        · exact Or.inr (Or.inr (Or.inr h))
    | none =>
      rw [hw, Option.none_or] at hm
      have hnmw : ∀ f ∈ fs.walk d, fs.content f ≠ some rc := by
        intro f hf hcf
        have := List.find?_eq_none.mp hw f hf
        exact this ((isMatch_true_iff fs rc f).mpr hcf)
      obtain ⟨sf1, sf2⟩ := scanFiles_none fs ref rc v (fs.walk d) hstatw hnmw
      rw [scanDirs_cons_cont fs ref rc v d rest hd sf1]
      obtain ⟨ih1, ih2, ih3, ih4⟩ :=
        ih m (fun x hx => hdir x (List.mem_cons_of_mem d hx)) hstatr hm
      have hdm : dirHasMatch fs rc d = false := by simp [dirHasMatch, hw]
      have httd : takeThrough (dirHasMatch fs rc) (d :: rest) =
          d :: takeThrough (dirHasMatch fs rc) rest := by
        simp [takeThrough, hdm]
      have httf : takeThrough (isMatch fs rc) (candidates fs (d :: rest)) =
          fs.walk d ++ takeThrough (isMatch fs rc) (candidates fs rest) := by
        rw [hcand]
        exact takeThrough_append_of_none _ _ _ hw
      refine ⟨ih1, List.mem_cons_of_mem _ (List.mem_append_right _ ih2),
        fun hv => List.mem_cons_of_mem _ (List.mem_append_right _ (ih3 hv)), ?_⟩
      intro e he
      rcases List.mem_cons.mp he with rfl | he2
      · exact Or.inl ⟨d, by rw [httd]; exact List.mem_cons_self _ _, rfl⟩
      · rcases List.mem_append.mp he2 with h2 | h2
        · obtain ⟨f, hf, hef⟩ := sf2 e h2
          exact Or.inr (Or.inl ⟨f, by rw [httf]; exact List.mem_append_left _ hf, hef⟩)
        · rcases ih4 e h2 with ⟨d2, hd2, hed⟩ | ⟨f, hf, hef⟩ | h | h
          · exact Or.inl ⟨d2, by rw [httd]; exact List.mem_cons_of_mem _ hd2, hed⟩
          · exact Or.inr (Or.inl ⟨f, by rw [httf]; exact List.mem_append_right _ hf, hef⟩)
          · exact Or.inr (Or.inr (Or.inl h))
          · exact Or.inr (Or.inr (Or.inr h))

lemma scanDirs_noMatch :
    ∀ dirs : List String,
      (∀ d ∈ dirs, fs.isDir d = true) →
      (∀ f ∈ candidates fs dirs, (fs.content f).isSome) →
      (∀ f ∈ candidates fs dirs, fs.content f ≠ some rc) →
      (scanDirs fs ref rc v dirs).1 = Outcome.exit 0 ∧
      Ev.addTag "Unique" Color.green ref ∈ (scanDirs fs ref rc v dirs).2 ∧
      ∀ e ∈ (scanDirs fs ref rc v dirs).2,
        (∃ d ∈ dirs, e = Ev.checkDir d) ∨
        (∃ f ∈ candidates fs dirs, e = Ev.statFile f ∨ e = Ev.openCmp f) ∨
        e = Ev.addTag "Unique" Color.green ref := by
  intro dirs
  induction dirs with
  | nil =>
    intro _ _ _
    rw [scanDirs_nil]
    refine ⟨rfl, List.mem_singleton.mpr rfl, ?_⟩
    intro e he
    rcases List.mem_singleton.mp he with rfl
    exact Or.inr (Or.inr rfl)
  | cons d rest ih =>
    intro hdir hstat hnm
    have hd : fs.isDir d = true := hdir d (List.mem_cons_self d rest)
    have hcand : candidates fs (d :: rest) = fs.walk d ++ candidates fs rest := by
      simp [candidates]
    have hstatw : ∀ f ∈ fs.walk d, (fs.content f).isSome := fun f hf =>
      hstat f (hcand ▸ List.mem_append_left _ hf)
    have hnmw : ∀ f ∈ fs.walk d, fs.content f ≠ some rc := fun f hf =>
      hnm f (hcand ▸ List.mem_append_left _ hf)
    obtain ⟨sf1, sf2⟩ := scanFiles_none fs ref rc v (fs.walk d) hstatw hnmw
    rw [scanDirs_cons_cont fs ref rc v d rest hd sf1]
    obtain ⟨ih1, ih2, ih3⟩ := ih (fun x hx => hdir x (List.mem_cons_of_mem d hx))
      (fun f hf => hstat f (hcand ▸ List.mem_append_right _ hf))
      (fun f hf => hnm f (hcand ▸ List.mem_append_right _ hf))
    refine ⟨ih1, List.mem_cons_of_mem _ (List.mem_append_right _ ih2), ?_⟩
    intro e he
    rcases List.mem_cons.mp he with rfl | he2
    · exact Or.inl ⟨d, List.mem_cons_self _ _, rfl⟩
    · rcases List.mem_append.mp he2 with h2 | h2
      · obtain ⟨f, hf, hef⟩ := sf2 e h2
        exact Or.inr (Or.inl ⟨f, hcand ▸ List.mem_append_left _ hf, hef⟩)
      · rcases ih3 e h2 with ⟨d2, hd2, hed⟩ | ⟨f, hf, hef⟩ | h
        · exact Or.inl ⟨d2, List.mem_cons_of_mem _ hd2, hed⟩
        · exact Or.inr (Or.inl ⟨f, hcand ▸ List.mem_append_right _ hf, hef⟩)
        · exact Or.inr (Or.inr h)

lemma scanDirs_badDir :
    ∀ (pre : List String) (bad : String) (post : List String),
      (∀ d ∈ pre, fs.isDir d = true) →
      (∀ f ∈ candidates fs pre, (fs.content f).isSome) →
      (∀ f ∈ candidates fs pre, fs.content f ≠ some rc) →
      fs.isDir bad = false →
      (scanDirs fs ref rc v (pre ++ bad :: post)).1 = Outcome.exit 1 ∧
      Ev.printMsg ("Directory " ++ bad ++ " does not exist") ∈
        (scanDirs fs ref rc v (pre ++ bad :: post)).2 ∧
      ∀ e ∈ (scanDirs fs ref rc v (pre ++ bad :: post)).2,
        (∃ d ∈ pre ++ [bad], e = Ev.checkDir d) ∨
        (∃ f ∈ candidates fs pre, e = Ev.statFile f ∨ e = Ev.openCmp f) ∨
        e = Ev.printMsg ("Directory " ++ bad ++ " does not exist") := by
  intro pre
  induction pre with
  | nil =>
    intro bad post _ _ _ hbad
    rw [List.nil_append, scanDirs_cons_bad fs ref rc v bad post hbad]
    refine ⟨rfl, List.mem_cons_of_mem _ (List.mem_singleton.mpr rfl), ?_⟩
    intro e he
    rcases List.mem_cons.mp he with rfl | he2
    · exact Or.inl ⟨bad, List.mem_singleton.mpr rfl, rfl⟩
    · rcases List.mem_singleton.mp he2 with rfl
      exact Or.inr (Or.inr rfl)
  | cons d rest ih =>
    intro bad post hdir hstat hnm hbad
    have hd : fs.isDir d = true := hdir d (List.mem_cons_self d rest)
    have hcand : candidates fs (d :: rest) = fs.walk d ++ candidates fs rest := by
      simp [candidates]
    have hstatw : ∀ f ∈ fs.walk d, (fs.content f).isSome := fun f hf =>
      hstat f (hcand ▸ List.mem_append_left _ hf)
    have hnmw : ∀ f ∈ fs.walk d, fs.content f ≠ some rc := fun f hf =>
      hnm f (hcand ▸ List.mem_append_left _ hf)
    obtain ⟨sf1, sf2⟩ := scanFiles_none fs ref rc v (fs.walk d) hstatw hnmw
    rw [List.cons_append, scanDirs_cons_cont fs ref rc v d (rest ++ bad :: post) hd sf1]
    obtain ⟨ih1, ih2, ih3⟩ := ih bad post (fun x hx => hdir x (List.mem_cons_of_mem d hx))
      (fun f hf => hstat f (hcand ▸ List.mem_append_right _ hf))
      (fun f hf => hnm f (hcand ▸ List.mem_append_right _ hf)) hbad
    refine ⟨ih1, List.mem_cons_of_mem _ (List.mem_append_right _ ih2), ?_⟩
    intro e he
    rcases List.mem_cons.mp he with rfl | he2
    · exact Or.inl ⟨d, List.mem_append_left _ (List.mem_cons_self _ _), rfl⟩
    · rcases List.mem_append.mp he2 with h2 | h2
      · obtain ⟨f, hf, hef⟩ := sf2 e h2
        exact Or.inr (Or.inl ⟨f, hcand ▸ List.mem_append_left _ hf, hef⟩)
      · rcases ih3 e h2 with ⟨d2, hd2, hed⟩ | ⟨f, hf, hef⟩ | h
        · refine Or.inl ⟨d2, ?_, hed⟩
          rcases List.mem_append.mp hd2 with h3 | h3
          · exact List.mem_append_left _ (List.mem_cons_of_mem _ h3)
          · exact List.mem_append_right _ h3
        · exact Or.inr (Or.inl ⟨f, hcand ▸ List.mem_append_right _ hf, hef⟩)
        · exact Or.inr (Or.inr h)

lemma scanDirs_ghost :
    ∀ (pre : List String) (gd : String) (post wa : List String) (g : String)
      (wb : List String),
      (∀ d ∈ pre, fs.isDir d = true) →
      (∀ f ∈ candidates fs pre, (fs.content f).isSome) →
      (∀ f ∈ candidates fs pre, fs.content f ≠ some rc) →
      fs.isDir gd = true →
      fs.walk gd = wa ++ g :: wb →
      (∀ f ∈ wa, (fs.content f).isSome) →
      (∀ f ∈ wa, fs.content f ≠ some rc) →
      fs.content g = none →
      (scanDirs fs ref rc v (pre ++ gd :: post)).1 = Outcome.exn "OSError" ∧
      ∀ n c q, Ev.addTag n c q ∉ (scanDirs fs ref rc v (pre ++ gd :: post)).2 := by
  intro pre
  induction pre with
  | nil =>
    intro gd post wa g wb _ _ _ hgd hwalk hwa1 hwa2 hg
    obtain ⟨sf1, sf2⟩ := scanFiles_crash fs ref rc v wa g wb hwa1 hwa2 hg
    rw [← hwalk] at sf1 sf2
    rw [List.nil_append, scanDirs_cons_stop fs ref rc v gd post (Outcome.exn "OSError") hgd sf1]
    refine ⟨rfl, ?_⟩
    intro n c q hmem
    rcases List.mem_cons.mp hmem with h | h
    · exact absurd h (by simp)
    · rcases sf2 _ h with ⟨f, hef⟩ | ⟨f, hef⟩ <;> exact absurd hef (by simp)
  | cons d rest ih =>
    intro gd post wa g wb hdir hstat hnm hgd hwalk hwa1 hwa2 hg
    have hd : fs.isDir d = true := hdir d (List.mem_cons_self d rest)
    have hcand : candidates fs (d :: rest) = fs.walk d ++ candidates fs rest := by
      simp [candidates]
    have hstatw : ∀ f ∈ fs.walk d, (fs.content f).isSome := fun f hf =>
      hstat f (hcand ▸ List.mem_append_left _ hf)
    have hnmw : ∀ f ∈ fs.walk d, fs.content f ≠ some rc := fun f hf =>
      hnm f (hcand ▸ List.mem_append_left _ hf)
    obtain ⟨sf1, sf2⟩ := scanFiles_none fs ref rc v (fs.walk d) hstatw hnmw
    rw [List.cons_append, scanDirs_cons_cont fs ref rc v d (rest ++ gd :: post) hd sf1]
    obtain ⟨ih1, ih2⟩ := ih gd post wa g wb (fun x hx => hdir x (List.mem_cons_of_mem d hx))
      (fun f hf => hstat f (hcand ▸ List.mem_append_right _ hf))
      (fun f hf => hnm f (hcand ▸ List.mem_append_right _ hf)) hgd hwalk hwa1 hwa2 hg
    refine ⟨ih1, ?_⟩
    intro n c q hmem
    rcases List.mem_cons.mp hmem with h | h
    · exact absurd h (by simp)
    · rcases List.mem_append.mp h with h2 | h2
      · obtain ⟨f, _, hef⟩ := sf2 _ h2
        rcases hef with hef | hef <;> exact absurd hef (by simp)
      · exact ih2 n c q h2

lemma scanDirs_open_size :
    ∀ (l : List String) (f : String),
      Ev.openCmp f ∈ (scanDirs fs ref rc v l).2 →
      ∃ c, fs.content f = some c ∧ c.length = rc.length := by
  intro l
  induction l with
  | nil =>
    intro f hf
    rw [scanDirs_nil] at hf
    simp at hf
  | cons d rest ih =>
    intro f hf
    cases hd : fs.isDir d with
    | false =>
      rw [scanDirs_cons_bad fs ref rc v d rest hd] at hf
      simp at hf
    | true =>
      cases hsf : (scanFiles fs ref rc v (fs.walk d)).1 with
      | some out =>
        rw [scanDirs_cons_stop fs ref rc v d rest out hd hsf] at hf
        rcases List.mem_cons.mp hf with h | hf2
        · exact absurd h (by simp)
        · exact scanFiles_open_size fs ref rc v (fs.walk d) f hf2
      | none =>
        rw [scanDirs_cons_cont fs ref rc v d rest hd hsf] at hf
        rcases List.mem_cons.mp hf with h | hf2
        · exact absurd h (by simp)
        · rcases List.mem_append.mp hf2 with h2 | h2
          · exact scanFiles_open_size fs ref rc v (fs.walk d) f h2
          · exact ih f h2

/-! Branch equations for `run`, one per exit path of the source. -/

lemma run_none : run fs ⟨none, ref, v⟩ = (Outcome.exn "TypeError", []) := rfl

lemma run_noDirs (dirs : List String) (h : dirs.length = 0) :
    run fs ⟨some dirs, ref, v⟩ = (Outcome.exit 2, [Ev.printHelp]) := by
  simp only [run]
  rw [if_pos h]

lemma run_noRef (dirs : List String) (hd : dirs ≠ [])
    (hf : fs.isFile ref = false) :
    run fs ⟨some dirs, ref, v⟩ =
      (Outcome.exit 2,
        [Ev.printMsg ("Reference file " ++ ref ++ " does not exist")]) := by
  have h0 : ¬(dirs.length = 0) := by simpa using hd
  simp only [run]
  rw [if_neg h0, if_pos hf]

lemma run_refStatFail (dirs : List String) (hd : dirs ≠ [])
    (hf : fs.isFile ref = true) (hc : fs.content ref = none) :
    run fs ⟨some dirs, ref, v⟩ = (Outcome.exn "OSError", [Ev.statFile ref]) := by
  have h0 : ¬(dirs.length = 0) := by simpa using hd
  have h1 : ¬(fs.isFile ref = false) := by simp [hf]
  simp only [run, hc]
  rw [if_neg h0, if_neg h1]

lemma run_emptyRef (dirs : List String) (hd : dirs ≠ [])
    (hf : fs.isFile ref = true) (hc : fs.content ref = some []) :
    run fs ⟨some dirs, ref, v⟩ =
      (Outcome.exit 2,
        [Ev.statFile ref,
         Ev.printMsg ("Reference file " ++ ref ++ " is empty")]) := by
  have h0 : ¬(dirs.length = 0) := by simpa using hd
  have h1 : ¬(fs.isFile ref = false) := by simp [hf]
  simp only [run, hc]
  rw [if_neg h0, if_neg h1, if_pos List.length_nil]

lemma run_valid (dirs : List String) (hd : dirs ≠ [])
    (hf : fs.isFile ref = true) (hc : fs.content ref = some rc) (hn : rc ≠ []) :
    run fs ⟨some dirs, ref, v⟩ =
      ((scanDirs fs ref rc v dirs).1,
        Ev.statFile ref :: Ev.clearTags ref :: Ev.statFile ref ::
          (scanDirs fs ref rc v dirs).2) := by
  have h0 : ¬(dirs.length = 0) := by simpa using hd
  have h1 : ¬(fs.isFile ref = false) := by simp [hf]
  have h2 : ¬(rc.length = 0) := by simpa using hn
  simp only [run, hc]
  rw [if_neg h0, if_neg h1, if_neg h2]

end Lemmas

/-! ### Claim theorems -/

/-- Claim C3: the claim states that an invocation with no `--directory` option
prints the help text and exits with status 2.  The code does not: argparse
leaves `directories = None`, and `len(None)` in `validate_args` raises an
uncaught `TypeError`, so the process crashes before any help text is printed
and never calls `sys.exit(2)`. -/
theorem noDirectoryFlag_crashes (fs : FS) (ref : String) (v : Bool) :
    run fs ⟨none, ref, v⟩ = (Outcome.exn "TypeError", []) ∧
    (run fs ⟨none, ref, v⟩).1 ≠ Outcome.exit 2 ∧
    Ev.printHelp ∉ (run fs ⟨none, ref, v⟩).2 :=
  ⟨rfl, fun h => Outcome.noConfusion h, fun h => (List.not_mem_nil _ h).elim⟩

/-- Claim C7: if the reference file does not exist or is not a regular file,
the run prints an error naming the path and exits with status 2, regardless of
its size; otherwise, if the file is empty, the run prints an error naming the
path and exits with status 2.  Each branch equation gives the full trace, so
each check is a hard stop and the existence check precedes the size check. -/
theorem referenceFile_checks_order (fs : FS) (dirs : List String) (ref : String)
    (v : Bool) (hd : dirs ≠ []) :
    (fs.isFile ref = false →
      run fs ⟨some dirs, ref, v⟩ =
        (Outcome.exit 2,
          [Ev.printMsg ("Reference file " ++ ref ++ " does not exist")])) ∧
    (fs.isFile ref = true → fs.content ref = some [] →
      run fs ⟨some dirs, ref, v⟩ =
        (Outcome.exit 2,
          [Ev.statFile ref,
           Ev.printMsg ("Reference file " ++ ref ++ " is empty")])) :=
  ⟨fun hf => run_noRef fs ref v dirs hd hf,
   fun hf hc => run_emptyRef fs ref v dirs hd hf hc⟩

/-- Witness for `referenceFile_checks_order` at concrete inputs: a missing
reference file and an empty reference file. -/
theorem referenceFile_checks_order_witness :
    run fsUniq ⟨some ["dirA"], "missing.txt", false⟩ =
      (Outcome.exit 2,
        [Ev.printMsg ("Reference file " ++ "missing.txt" ++ " does not exist")]) ∧
    run fsEmptyRef ⟨some ["dirA"], "a.txt", false⟩ =
      (Outcome.exit 2,
        [Ev.statFile "a.txt",
         Ev.printMsg ("Reference file " ++ "a.txt" ++ " is empty")]) :=
  ⟨(referenceFile_checks_order fsUniq ["dirA"] "missing.txt" false (by decide)).1
      (by decide),
   (referenceFile_checks_order fsEmptyRef ["dirA"] "a.txt" false (by decide)).2
      (by decide) (by decide)⟩

/-- Claim C5: in every run, a candidate is opened for content comparison only
when its size equals the size of the reference file: every `openCmp` event in
the trace concerns a file whose byte length equals the byte length of the
reference content. -/
theorem sizeMismatch_never_opened (fs : FS) (cfg : Config) (f : String)
    (h : Ev.openCmp f ∈ (run fs cfg).2) :
    ∃ rc c, fs.content cfg.reference_file = some rc ∧ fs.content f = some c ∧
      c.length = rc.length := by
  obtain ⟨dopt, ref, v⟩ := cfg
  cases dopt with
  | none =>
    rw [run_none] at h
    simp at h
  | some dirs =>
    by_cases h0 : dirs.length = 0
    · rw [run_noDirs fs ref v dirs h0] at h
      simp at h
    · have hdne : dirs ≠ [] := fun hh => h0 (by simp [hh])
      cases hf : fs.isFile ref with
      | false =>
        rw [run_noRef fs ref v dirs hdne hf] at h
        simp at h
      | true =>
        cases hc : fs.content ref with
        | none =>
          rw [run_refStatFail fs ref v dirs hdne hf hc] at h
          simp at h
        | some rc =>
          by_cases hn : rc = []
          · subst hn
            rw [run_emptyRef fs ref v dirs hdne hf hc] at h
            simp at h
          · rw [run_valid fs ref rc v dirs hdne hf hc hn] at h
            rcases List.mem_cons.mp h with h1 | h1
            · exact absurd h1 (by simp)
            · rcases List.mem_cons.mp h1 with h2 | h2
              · exact absurd h2 (by simp)
              · rcases List.mem_cons.mp h2 with h3 | h3
                · exact absurd h3 (by simp)
                · obtain ⟨c, hcf, hlen⟩ := scanDirs_open_size fs ref rc v dirs f h3
                  exact ⟨rc, c, rfl, hcf, hlen⟩

/-- Witness for `sizeMismatch_never_opened`: in `fsUniq`, `dirA/y.txt` (same
size, different content) is opened, and its size equals the reference size. -/
theorem sizeMismatch_never_opened_witness :
    Ev.openCmp "dirA/y.txt" ∈ (run fsUniq ⟨some ["dirA"], "a.txt", false⟩).2 ∧
    (∃ rc c, fsUniq.content "a.txt" = some rc ∧ fsUniq.content "dirA/y.txt" = some c ∧
      c.length = rc.length) :=
  ⟨by decide,
   sizeMismatch_never_opened fsUniq ⟨some ["dirA"], "a.txt", false⟩ "dirA/y.txt"
     (by decide)⟩

/-- Claim C6: every run that terminates with exit status 2 (a config/validation
error) fails before any directory is touched and before any tagging call: its
trace contains no tag addition, no tag clearing, no directory check and no
file opened for comparison, so the tag state of the reference file is unchanged. -/
theorem validationError_leaves_state_untouched (fs : FS) (cfg : Config)
    (h : (run fs cfg).1 = Outcome.exit 2) :
    (∀ n c q, Ev.addTag n c q ∉ (run fs cfg).2) ∧
    (∀ q, Ev.clearTags q ∉ (run fs cfg).2) ∧
    (∀ d, Ev.checkDir d ∉ (run fs cfg).2) ∧
    (∀ f, Ev.openCmp f ∉ (run fs cfg).2) := by
  obtain ⟨dopt, ref, v⟩ := cfg
  cases dopt with
  | none =>
    rw [run_none]
    exact ⟨fun n c q => by simp, fun q => by simp, fun d => by simp, fun f => by simp⟩
  | some dirs =>
    by_cases h0 : dirs.length = 0
    · rw [run_noDirs fs ref v dirs h0]
      exact ⟨fun n c q => by simp, fun q => by simp, fun d => by simp, fun f => by simp⟩
    · have hdne : dirs ≠ [] := fun hh => h0 (by simp [hh])
      cases hf : fs.isFile ref with
      | false =>
        rw [run_noRef fs ref v dirs hdne hf]
        exact ⟨fun n c q => by simp, fun q => by simp, fun d => by simp, fun f => by simp⟩
      | true =>
        cases hc : fs.content ref with
        | none =>
          rw [run_refStatFail fs ref v dirs hdne hf hc]
          exact ⟨fun n c q => by simp, fun q => by simp, fun d => by simp,
            fun f => by simp⟩
        | some rc =>
          by_cases hn : rc = []
          · subst hn
            rw [run_emptyRef fs ref v dirs hdne hf hc]
            exact ⟨fun n c q => by simp, fun q => by simp, fun d => by simp,
              fun f => by simp⟩
          · rw [run_valid fs ref rc v dirs hdne hf hc hn] at h
            exact absurd h (scanDirs_fst_ne fs ref rc v dirs)

/-- Witness for `validationError_leaves_state_untouched`: a run whose reference
file does not exist exits 2 and touches neither tags nor directories. -/
theorem validationError_leaves_state_untouched_witness :
    (run fsUniq ⟨some ["dirA"], "missing.txt", false⟩).1 = Outcome.exit 2 ∧
    Ev.addTag "Unique" Color.green "missing.txt" ∉
      (run fsUniq ⟨some ["dirA"], "missing.txt", false⟩).2 ∧
    Ev.clearTags "missing.txt" ∉ (run fsUniq ⟨some ["dirA"], "missing.txt", false⟩).2 ∧
    Ev.checkDir "dirA" ∉ (run fsUniq ⟨some ["dirA"], "missing.txt", false⟩).2 := by
  have h := validationError_leaves_state_untouched fsUniq
    ⟨some ["dirA"], "missing.txt", false⟩ (by decide)
  exact ⟨by decide, h.1 "Unique" Color.green "missing.txt", h.2.1 "missing.txt",
    h.2.2.1 "dirA"⟩

/-- Claim C2: when every supplied directory exists and is walked completely
without any candidate matching the content of the reference file, the run exits
with status 0 and tags the reference file "Unique" (green); every tag added
during the run is that "Unique" tag. -/
theorem noMatch_tags_unique_exit0 (fs : FS) (dirs : List String) (ref : String)
    (v : Bool) (rc : List Nat)
    (hdne : dirs ≠ []) (href : fs.isFile ref = true)
    (hrc : fs.content ref = some rc) (hne : rc ≠ [])
    (hdir : ∀ d ∈ dirs, fs.isDir d = true)
    (hstat : ∀ f ∈ candidates fs dirs, (fs.content f).isSome)
    (hnm : ∀ f ∈ candidates fs dirs, fs.content f ≠ some rc) :
    (run fs ⟨some dirs, ref, v⟩).1 = Outcome.exit 0 ∧
    Ev.addTag "Unique" Color.green ref ∈ (run fs ⟨some dirs, ref, v⟩).2 ∧
    ∀ n c q, Ev.addTag n c q ∈ (run fs ⟨some dirs, ref, v⟩).2 →
      n = "Unique" ∧ c = Color.green ∧ q = ref := by
  have htr : (run fs ⟨some dirs, ref, v⟩).2 =
      Ev.statFile ref :: Ev.clearTags ref :: Ev.statFile ref ::
        (scanDirs fs ref rc v dirs).2 := by
    rw [run_valid fs ref rc v dirs hdne href hrc hne]
  have ho : (run fs ⟨some dirs, ref, v⟩).1 = (scanDirs fs ref rc v dirs).1 := by
    rw [run_valid fs ref rc v dirs hdne href hrc hne]
  obtain ⟨d1, d2, d3⟩ := scanDirs_noMatch fs ref rc v dirs hdir hstat hnm
  rw [ho, htr]
  refine ⟨d1,
    List.mem_cons_of_mem _ (List.mem_cons_of_mem _ (List.mem_cons_of_mem _ d2)), ?_⟩
  intro n c q hmem
  rcases List.mem_cons.mp hmem with h | h
  · exact absurd h (by simp)
  rcases List.mem_cons.mp h with h | h
  · exact absurd h (by simp)
  rcases List.mem_cons.mp h with h | h
  · exact absurd h (by simp)
  rcases d3 _ h with ⟨d0, _, hed⟩ | ⟨f, _, hef⟩ | heq
  · exact absurd hed (by simp)
  · rcases hef with hef | hef <;> exact absurd hef (by simp)
  · injection heq with h1 h2 h3
    exact ⟨h1, h2, h3⟩

/-- Witness for `noMatch_tags_unique_exit0`: `fsUniq` holds only a same-size,
different-content candidate. -/
theorem noMatch_tags_unique_exit0_witness :
    (run fsUniq ⟨some ["dirA"], "a.txt", false⟩).1 = Outcome.exit 0 ∧
    Ev.addTag "Unique" Color.green "a.txt" ∈
      (run fsUniq ⟨some ["dirA"], "a.txt", false⟩).2 := by
  have h := noMatch_tags_unique_exit0 fsUniq ["dirA"] "a.txt" false hello
    (by decide) (by decide) (by decide) (by decide) (by decide) (by decide) (by decide)
  exact ⟨h.1, h.2.1⟩

/-- Claim C4: when a supplied search directory does not exist, and every
directory before it exists and is walked without a match, the run stops at
that directory: it exits with status 1, prints an error naming the missing
directory, applies no tag at all, and checks no directory beyond the missing
one. -/
theorem missingDirectory_aborts_scan (fs : FS) (pre post : List String)
    (bad ref : String) (v : Bool) (rc : List Nat)
    (href : fs.isFile ref = true) (hrc : fs.content ref = some rc) (hne : rc ≠ [])
    (hpre : ∀ d ∈ pre, fs.isDir d = true)
    (hpstat : ∀ f ∈ candidates fs pre, (fs.content f).isSome)
    (hpnm : ∀ f ∈ candidates fs pre, fs.content f ≠ some rc)
    (hbad : fs.isDir bad = false) :
    (run fs ⟨some (pre ++ bad :: post), ref, v⟩).1 = Outcome.exit 1 ∧
    Ev.printMsg ("Directory " ++ bad ++ " does not exist") ∈
      (run fs ⟨some (pre ++ bad :: post), ref, v⟩).2 ∧
    (∀ n c q, Ev.addTag n c q ∉ (run fs ⟨some (pre ++ bad :: post), ref, v⟩).2) ∧
    (∀ d, Ev.checkDir d ∈ (run fs ⟨some (pre ++ bad :: post), ref, v⟩).2 →
      d ∈ pre ++ [bad]) := by
  have hdne : pre ++ bad :: post ≠ [] := by simp
  have htr : (run fs ⟨some (pre ++ bad :: post), ref, v⟩).2 =
      Ev.statFile ref :: Ev.clearTags ref :: Ev.statFile ref ::
        (scanDirs fs ref rc v (pre ++ bad :: post)).2 := by
    rw [run_valid fs ref rc v (pre ++ bad :: post) hdne href hrc hne]
  have ho : (run fs ⟨some (pre ++ bad :: post), ref, v⟩).1 =
      (scanDirs fs ref rc v (pre ++ bad :: post)).1 := by
    rw [run_valid fs ref rc v (pre ++ bad :: post) hdne href hrc hne]
  obtain ⟨d1, d2, d3⟩ := scanDirs_badDir fs ref rc v pre bad post hpre hpstat hpnm hbad
  rw [ho, htr]
  refine ⟨d1,
    List.mem_cons_of_mem _ (List.mem_cons_of_mem _ (List.mem_cons_of_mem _ d2)),
    ?_, ?_⟩
  · intro n c q hmem
    rcases List.mem_cons.mp hmem with h | h
    · exact absurd h (by simp)
    rcases List.mem_cons.mp h with h | h
    · exact absurd h (by simp)
    rcases List.mem_cons.mp h with h | h
    · exact absurd h (by simp)
    rcases d3 _ h with ⟨d0, _, hed⟩ | ⟨f, _, hef⟩ | heq
    · exact absurd hed (by simp)
    · rcases hef with hef | hef <;> exact absurd hef (by simp)
    · exact absurd heq (by simp)
  · intro d hmem
    rcases List.mem_cons.mp hmem with h | h
    · exact absurd h (by simp)
    rcases List.mem_cons.mp h with h | h
    · exact absurd h (by simp)
    rcases List.mem_cons.mp h with h | h
    · exact absurd h (by simp)
    rcases d3 _ h with ⟨d0, hd0, hed⟩ | ⟨f, _, hef⟩ | heq
    · injection hed with h1
      rw [h1]
      exact hd0
    · rcases hef with hef | hef <;> exact absurd hef (by simp)
    · exact absurd heq (by simp)

/-- Witness for `missingDirectory_aborts_scan`: `dirA` has no match and `dirB`
does not exist. -/
theorem missingDirectory_aborts_scan_witness :
    (run fsBadDir ⟨some (["dirA"] ++ "dirB" :: []), "a.txt", false⟩).1 =
      Outcome.exit 1 ∧
    Ev.printMsg ("Directory " ++ "dirB" ++ " does not exist") ∈
      (run fsBadDir ⟨some (["dirA"] ++ "dirB" :: []), "a.txt", false⟩).2 ∧
    Ev.addTag "Unique" Color.green "a.txt" ∉
      (run fsBadDir ⟨some (["dirA"] ++ "dirB" :: []), "a.txt", false⟩).2 := by
  have h := missingDirectory_aborts_scan fsBadDir ["dirA"] [] "dirB" "a.txt" false hello
    (by decide) (by decide) (by decide) (by decide) (by decide) (by decide) (by decide)
  exact ⟨h.1, h.2.1, h.2.2.1 "Unique" Color.green "a.txt"⟩

/-- Claim C9: the walk does not exclude the reference file itself: when the
reference file lies under one of the supplied directories (and the scan can
reach it), the run finds a content match — at worst the reference file
itself — so it exits with status 1 and tags the reference file "Duplicate",
even if no other copy exists anywhere. -/
theorem referenceFile_in_searchDir_is_duplicate (fs : FS) (dirs : List String)
    (ref : String) (v : Bool) (rc : List Nat)
    (href : fs.isFile ref = true) (hrc : fs.content ref = some rc) (hne : rc ≠ [])
    (hdir : ∀ d ∈ dirs, fs.isDir d = true)
    (hstat : ∀ f ∈ candidates fs dirs, (fs.content f).isSome)
    (hself : ref ∈ candidates fs dirs) :
    (run fs ⟨some dirs, ref, v⟩).1 = Outcome.exit 1 ∧
    Ev.addTag "Duplicate" Color.red ref ∈ (run fs ⟨some dirs, ref, v⟩).2 := by
  have hdne : dirs ≠ [] := by
    rintro rfl
    simp [candidates] at hself
  have hsome : ((candidates fs dirs).find? (isMatch fs rc)).isSome := by
    rw [List.find?_isSome]
    exact ⟨ref, hself, (isMatch_true_iff fs rc ref).mpr hrc⟩
  obtain ⟨m, hm⟩ := Option.isSome_iff_exists.mp hsome
  have htr : (run fs ⟨some dirs, ref, v⟩).2 =
      Ev.statFile ref :: Ev.clearTags ref :: Ev.statFile ref ::
        (scanDirs fs ref rc v dirs).2 := by
    rw [run_valid fs ref rc v dirs hdne href hrc hne]
  have ho : (run fs ⟨some dirs, ref, v⟩).1 = (scanDirs fs ref rc v dirs).1 := by
    rw [run_valid fs ref rc v dirs hdne href hrc hne]
  obtain ⟨d1, d2, _, _⟩ := scanDirs_match fs ref rc v dirs m hdir hstat hm
  rw [ho, htr]
  exact ⟨d1,
    List.mem_cons_of_mem _ (List.mem_cons_of_mem _ (List.mem_cons_of_mem _ d2))⟩

/-- Witness for `referenceFile_in_searchDir_is_duplicate`: `dirA` contains
only the reference file itself, and the run still reports a duplicate. -/
theorem referenceFile_in_searchDir_is_duplicate_witness :
    (run fsSelf ⟨some ["dirA"], "dirA/a.txt", false⟩).1 = Outcome.exit 1 ∧
    Ev.addTag "Duplicate" Color.red "dirA/a.txt" ∈
      (run fsSelf ⟨some ["dirA"], "dirA/a.txt", false⟩).2 :=
  referenceFile_in_searchDir_is_duplicate fsSelf ["dirA"] "dirA/a.txt" false hello
    (by decide) (by decide) (by decide) (by decide) (by decide) (by decide)

/-- Claim C8: in every run that passes validation, the trace starts with the
stat of the reference file, then exactly one tag-clearing call — before any
other side effect of the scan — then the re-stat; afterwards at most one tag
is added, and never both the "Duplicate" and the "Unique" tag. -/
theorem clearTags_first_then_one_tag (fs : FS) (dirs : List String) (ref : String)
    (v : Bool) (rc : List Nat)
    (hdne : dirs ≠ []) (href : fs.isFile ref = true)
    (hrc : fs.content ref = some rc) (hne : rc ≠ []) :
    (run fs ⟨some dirs, ref, v⟩).2.countP isClear = 1 ∧
    ∃ rest,
      (run fs ⟨some dirs, ref, v⟩).2 =
        Ev.statFile ref :: Ev.clearTags ref :: Ev.statFile ref :: rest ∧
      (∀ q, Ev.clearTags q ∉ rest) ∧
      rest.countP isAdd ≤ 1 ∧
      ¬(Ev.addTag "Duplicate" Color.red ref ∈ rest ∧
        Ev.addTag "Unique" Color.green ref ∈ rest) := by
  have htr : (run fs ⟨some dirs, ref, v⟩).2 =
      Ev.statFile ref :: Ev.clearTags ref :: Ev.statFile ref ::
        (scanDirs fs ref rc v dirs).2 := by
    rw [run_valid fs ref rc v dirs hdne href hrc hne]
  have hnoclear : ∀ q, Ev.clearTags q ∉ (scanDirs fs ref rc v dirs).2 := by
    intro q hmem
    rcases scanDirs_events fs ref rc v dirs _ hmem with
      ⟨d, hd⟩ | ⟨f, hf⟩ | ⟨f, hf⟩ | ⟨s, hs⟩ | h | h
    · exact absurd hd (by simp)
    · exact absurd hf (by simp)
    · exact absurd hf (by simp)
    · exact absurd hs (by simp)
    · exact absurd h (by simp)
    · exact absurd h (by simp)
  have hc0 : (scanDirs fs ref rc v dirs).2.countP isClear = 0 := by
    rw [List.countP_eq_zero]
    intro e he hcl
    rcases scanDirs_events fs ref rc v dirs e he with
      ⟨d, hd⟩ | ⟨f, hf⟩ | ⟨f, hf⟩ | ⟨s, hs⟩ | h | h
    all_goals subst e
    · exact absurd hcl (by simp [isClear])
    · exact absurd hcl (by simp [isClear])
    · exact absurd hcl (by simp [isClear])
    · exact absurd hcl (by simp [isClear])
    · exact absurd hcl (by simp [isClear])
    · exact absurd hcl (by simp [isClear])
  rw [htr]
  refine ⟨?_, (scanDirs fs ref rc v dirs).2, rfl, hnoclear,
    scanDirs_countP fs ref rc v dirs, ?_⟩
  · rw [List.countP_cons_of_neg _ _ (by simp [isClear]),
      List.countP_cons_of_pos _ _ (by simp [isClear]),
      List.countP_cons_of_neg _ _ (by simp [isClear]), hc0]
  · rintro ⟨hdup, huniq⟩
    have hne2 : Ev.addTag "Duplicate" Color.red ref ≠
        Ev.addTag "Unique" Color.green ref := by
      intro hh
      injection hh with h1 h2 h3
      exact absurd h1 (by decide)
    have h2 := two_le_countP_of_mem isAdd (scanDirs fs ref rc v dirs).2 _ _
      hdup huniq hne2 rfl rfl
    have h1 := scanDirs_countP fs ref rc v dirs
    omega

/-- Witness for `clearTags_first_then_one_tag` on a concrete no-match run. -/
theorem clearTags_first_then_one_tag_witness :
    (run fsUniq ⟨some ["dirA"], "a.txt", false⟩).2.countP isClear = 1 :=
  (clearTags_first_then_one_tag fsUniq ["dirA"] "a.txt" false hello
    (by decide) (by decide) (by decide) (by decide)).1

/-- Claim C10: the per-candidate stat is unguarded: if the walk of a reached
directory yields an entry that fails to stat (all earlier candidates
having been scanned without a match), the run ends in an uncaught `OSError`
— no exit status is produced by the program and no tag is applied. -/
theorem unstattableCandidate_crashes (fs : FS) (pre : List String) (gd : String)
    (post wa : List String) (g ref : String) (wb : List String) (v : Bool)
    (rc : List Nat)
    (href : fs.isFile ref = true) (hrc : fs.content ref = some rc) (hne : rc ≠ [])
    (hpre : ∀ d ∈ pre, fs.isDir d = true)
    (hpstat : ∀ f ∈ candidates fs pre, (fs.content f).isSome)
    (hpnm : ∀ f ∈ candidates fs pre, fs.content f ≠ some rc)
    (hgd : fs.isDir gd = true)
    (hwalk : fs.walk gd = wa ++ g :: wb)
    (hwa1 : ∀ f ∈ wa, (fs.content f).isSome)
    (hwa2 : ∀ f ∈ wa, fs.content f ≠ some rc)
    (hg : fs.content g = none) :
    (run fs ⟨some (pre ++ gd :: post), ref, v⟩).1 = Outcome.exn "OSError" ∧
    ∀ n c q, Ev.addTag n c q ∉ (run fs ⟨some (pre ++ gd :: post), ref, v⟩).2 := by
  have hdne : pre ++ gd :: post ≠ [] := by simp
  have htr : (run fs ⟨some (pre ++ gd :: post), ref, v⟩).2 =
      Ev.statFile ref :: Ev.clearTags ref :: Ev.statFile ref ::
        (scanDirs fs ref rc v (pre ++ gd :: post)).2 := by
    rw [run_valid fs ref rc v (pre ++ gd :: post) hdne href hrc hne]
  have ho : (run fs ⟨some (pre ++ gd :: post), ref, v⟩).1 =
      (scanDirs fs ref rc v (pre ++ gd :: post)).1 := by
    rw [run_valid fs ref rc v (pre ++ gd :: post) hdne href hrc hne]
  obtain ⟨d1, d2⟩ := scanDirs_ghost fs ref rc v pre gd post wa g wb
    hpre hpstat hpnm hgd hwalk hwa1 hwa2 hg
  rw [ho, htr]
  refine ⟨d1, ?_⟩
  intro n c q hmem
  rcases List.mem_cons.mp hmem with h | h
  · exact absurd h (by simp)
  rcases List.mem_cons.mp h with h | h
  · exact absurd h (by simp)
  rcases List.mem_cons.mp h with h | h
  · exact absurd h (by simp)
  exact d2 n c q h

/-- Witness for `unstattableCandidate_crashes`: `fsGhost` yields a single
walk entry that fails to stat. -/
theorem unstattableCandidate_crashes_witness :
    (run fsGhost ⟨some ([] ++ "dirA" :: []), "a.txt", false⟩).1 =
      Outcome.exn "OSError" ∧
    Ev.addTag "Duplicate" Color.red "a.txt" ∉
      (run fsGhost ⟨some ([] ++ "dirA" :: []), "a.txt", false⟩).2 := by
  have h := unstattableCandidate_crashes fsGhost [] "dirA" [] [] "dirA/ghost"
    "a.txt" [] false hello (by decide) (by decide) (by decide) (by decide)
    (by decide) (by decide) (by decide) (by decide) (by decide) (by decide)
    (by decide)
  exact ⟨h.1, h.2 "Duplicate" Color.red "a.txt"⟩

/-- Claim C1: when some candidate under the supplied directories is
byte-identical to the reference file (and the scan can reach it: every root
is a directory and every candidate has a working stat), the run stops at the
first match `m` in traversal order: exit status 1, a "Duplicate" (red) tag on
the reference file, a verbose message naming `m` and the reference file, no
file examined beyond the prefix of the candidate stream ending at `m`, no
directory checked beyond the one containing `m`, and no "Unique" tag. -/
theorem firstDuplicate_stops_and_tags (fs : FS) (dirs : List String)
    (ref m : String) (v : Bool) (rc : List Nat)
    (href : fs.isFile ref = true) (hrc : fs.content ref = some rc) (hne : rc ≠ [])
    (hdir : ∀ d ∈ dirs, fs.isDir d = true)
    (hstat : ∀ f ∈ candidates fs dirs, (fs.content f).isSome)
    (hm : (candidates fs dirs).find? (isMatch fs rc) = some m) :
    (run fs ⟨some dirs, ref, v⟩).1 = Outcome.exit 1 ∧
    Ev.addTag "Duplicate" Color.red ref ∈ (run fs ⟨some dirs, ref, v⟩).2 ∧
    (v = true →
      Ev.printMsg ("File " ++ m ++ " is identical to " ++ ref) ∈
        (run fs ⟨some dirs, ref, v⟩).2) ∧
    (∀ f, Ev.statFile f ∈ (run fs ⟨some dirs, ref, v⟩).2 ∨
        Ev.openCmp f ∈ (run fs ⟨some dirs, ref, v⟩).2 →
      f = ref ∨ f ∈ takeThrough (isMatch fs rc) (candidates fs dirs)) ∧
    (∀ d, Ev.checkDir d ∈ (run fs ⟨some dirs, ref, v⟩).2 →
      d ∈ takeThrough (dirHasMatch fs rc) dirs) ∧
    Ev.addTag "Unique" Color.green ref ∉ (run fs ⟨some dirs, ref, v⟩).2 := by
  have hdne : dirs ≠ [] := by
    rintro rfl
    simp [candidates] at hm
  have htr : (run fs ⟨some dirs, ref, v⟩).2 =
      Ev.statFile ref :: Ev.clearTags ref :: Ev.statFile ref ::
        (scanDirs fs ref rc v dirs).2 := by
    rw [run_valid fs ref rc v dirs hdne href hrc hne]
  have ho : (run fs ⟨some dirs, ref, v⟩).1 = (scanDirs fs ref rc v dirs).1 := by
    rw [run_valid fs ref rc v dirs hdne href hrc hne]
  obtain ⟨d1, d2, d3, d4⟩ := scanDirs_match fs ref rc v dirs m hdir hstat hm
  rw [ho, htr]
  refine ⟨d1,
    List.mem_cons_of_mem _ (List.mem_cons_of_mem _ (List.mem_cons_of_mem _ d2)),
    fun hv =>
      List.mem_cons_of_mem _ (List.mem_cons_of_mem _ (List.mem_cons_of_mem _ (d3 hv))),
    ?_, ?_, ?_⟩
  · intro f hf
    rcases hf with hf | hf
    · rcases List.mem_cons.mp hf with h | h
      · injection h with h1
        exact Or.inl h1
      rcases List.mem_cons.mp h with h | h
      · exact absurd h (by simp)
      rcases List.mem_cons.mp h with h | h
      · injection h with h1
        exact Or.inl h1
      rcases d4 _ h with ⟨d0, _, hed⟩ | ⟨f0, hf0, hef⟩ | heq | heq
      · exact absurd hed (by simp)
      · rcases hef with hef | hef
        · injection hef with h1
          exact Or.inr (h1 ▸ hf0)
        · exact absurd hef (by simp)
      · exact absurd heq (by simp)
      · exact absurd heq (by simp)
    · rcases List.mem_cons.mp hf with h | h
      · exact absurd h (by simp)
      rcases List.mem_cons.mp h with h | h
      · exact absurd h (by simp)
      rcases List.mem_cons.mp h with h | h
      · exact absurd h (by simp)
      rcases d4 _ h with ⟨d0, _, hed⟩ | ⟨f0, hf0, hef⟩ | heq | heq
      · exact absurd hed (by simp)
      · rcases hef with hef | hef
        · exact absurd hef (by simp)
        · injection hef with h1
          exact Or.inr (h1 ▸ hf0)
      · exact absurd heq (by simp)
      · exact absurd heq (by simp)
  · intro d hmem
    rcases List.mem_cons.mp hmem with h | h
    · exact absurd h (by simp)
    rcases List.mem_cons.mp h with h | h
    · exact absurd h (by simp)
    rcases List.mem_cons.mp h with h | h
    · exact absurd h (by simp)
    rcases d4 _ h with ⟨d0, hd0, hed⟩ | ⟨f0, _, hef⟩ | heq | heq
    · injection hed with h1
      exact h1 ▸ hd0
    · rcases hef with hef | hef <;> exact absurd hef (by simp)
    · exact absurd heq (by simp)
    · exact absurd heq (by simp)
  · intro hmem
    rcases List.mem_cons.mp hmem with h | h
    · exact absurd h (by simp)
    rcases List.mem_cons.mp h with h | h
    · exact absurd h (by simp)
    rcases List.mem_cons.mp h with h | h
    · exact absurd h (by simp)
    rcases d4 _ h with ⟨d0, _, hed⟩ | ⟨f0, _, hef⟩ | heq | heq
    · exact absurd hed (by simp)
    · rcases hef with hef | hef <;> exact absurd hef (by simp)
    · injection heq with h1 h2 h3
      exact absurd h1 (by decide)
    · exact absurd heq (by simp)

/-- Witness for `firstDuplicate_stops_and_tags` on `fsDup`, whose first (and
only) match in traversal order is `dirA/y.txt`, with verbose set. -/
theorem firstDuplicate_stops_and_tags_witness :
    (run fsDup ⟨some ["dirA"], "a.txt", true⟩).1 = Outcome.exit 1 ∧
    Ev.addTag "Duplicate" Color.red "a.txt" ∈
      (run fsDup ⟨some ["dirA"], "a.txt", true⟩).2 ∧
    Ev.printMsg ("File " ++ "dirA/y.txt" ++ " is identical to " ++ "a.txt") ∈
      (run fsDup ⟨some ["dirA"], "a.txt", true⟩).2 := by
  have h := firstDuplicate_stops_and_tags fsDup ["dirA"] "a.txt" "dirA/y.txt" true
    hello (by decide) (by decide) (by decide) (by decide) (by decide) (by decide)
  exact ⟨h.1, h.2.1, h.2.2.1 rfl⟩

end Check4Duplicates
